import Mathlib

/-!
Verification of the simulation core of the Neon Invaders arcade shooter.

The definitions below are a shallow embedding of the Python sources
(`src/config.py`, `src/src/entities.py`, `src/src/game.py`).  Python ints
become `Int`/`Nat`; pygame rects become an explicit `Rect` structure
(pygame semantics: `right = x + w`, `bottom = y + h`, `centerx = x + w / 2`,
`colliderect` is strict overlap of areas); the pygame millisecond clock
(`pygame.time.get_ticks()`) is passed in explicitly as a `now : Int`
parameter; pygame sprite groups become Lean lists kept in insertion order.
Randomness (bonus-spawn rolls, elite sampling) is passed in as explicit
oracle data.  Sprite surface sizes come from `src/src/sprites.py`
(regular enemy 26x20, elite enemy 30x24, bullet 6x10, player 40x30).
-/

namespace NeonInvaders

/-! ## Configuration constants (src/config.py) -/

def SCREEN_WIDTH : Int := 800
def SCREEN_HEIGHT : Int := 600

def PLAYER_SPEED : Int := 5
def PLAYER_LIVES : Int := 3
def PLAYER_SHOOT_COOLDOWN : Int := 250

def ENEMY_SPEED_X : Int := 1
def ENEMY_SPEED_Y : Int := 20
def ENEMY_BULLET_SPEED : Int := 3
def ENEMY_ROWS : Nat := 5
def ENEMY_COLS : Nat := 10
def ENEMY_SPACING_X : Int := 70
def ENEMY_SPACING_Y : Int := 40
def ENEMY_START_Y : Int := 50

def BULLET_SPEED : Int := 7
def BULLET_WIDTH : Int := 6
def BULLET_HEIGHT : Int := 10

def BONUS_FALL_SPEED : Int := 2
def BONUS_SCORE : Int := 50

def FREEZE_DURATION : Int := 5000
def RAPID_FIRE_DURATION : Int := 5000
def SHIELD_DURATION : Int := 3000

def ENEMY_SCORE : Int := 10
def WAVE_CLEAR_BONUS : Int := 100

/-- Session states (class GameState in src/config.py). -/
inductive GameState where
  | MENU | SETTINGS | PLAYING | PAUSED | GAME_OVER | WAVE_CLEAR
deriving DecidableEq, Repr

/-! ## pygame rectangles -/

/-- A pygame `Rect`: integer top-left corner plus size. -/
structure Rect where
  x : Int
  y : Int
  w : Int
  h : Int
deriving DecidableEq, Repr

def Rect.left (r : Rect) : Int := r.x
def Rect.right (r : Rect) : Int := r.x + r.w
def Rect.top (r : Rect) : Int := r.y
def Rect.bottom (r : Rect) : Int := r.y + r.h
def Rect.centerx (r : Rect) : Int := r.x + r.w / 2
def Rect.centery (r : Rect) : Int := r.y + r.h / 2

/-- pygame `Rect.colliderect`: true when the interiors overlap
(rects sharing only an edge do not collide). -/
def Rect.colliderect (a b : Rect) : Bool :=
  a.x < b.x + b.w && b.x < a.x + a.w && a.y < b.y + b.h && b.y < a.y + a.h

/-! ## Player (class Player in src/src/entities.py) -/

structure Player where
  rect : Rect
  speed : Int
  lives : Int
  lastShotTime : Int
  score : Int
  tripleShotActive : Bool
  rapidFireActive : Bool
  rapidFireEndTime : Int
  shieldActive : Bool
  shieldEndTime : Int
deriving DecidableEq, Repr

/-- Player.__init__ at center position (x, y); the sprite is 40x30. -/
def Player.mk0 (x y : Int) : Player :=
  { rect := { x := x - 20, y := y - 15, w := 40, h := 30 }
    speed := PLAYER_SPEED
    lives := PLAYER_LIVES
    lastShotTime := 0
    score := 0
    tripleShotActive := false
    rapidFireActive := false
    rapidFireEndTime := 0
    shieldActive := false
    shieldEndTime := 0 }

/-- Player.can_shoot: cooldown is PLAYER_SHOOT_COOLDOWN, divided by 3
(Python floor division) while rapid fire is active and unexpired. -/
def Player.canShoot (p : Player) (currentTime : Int) : Bool :=
  let cooldown :=
    if p.rapidFireActive && currentTime < p.rapidFireEndTime then
      PLAYER_SHOOT_COOLDOWN / 3
    else
      PLAYER_SHOOT_COOLDOWN
  currentTime - p.lastShotTime > cooldown

/-- Player.hit: an active, unexpired shield absorbs the hit and is cleared;
otherwise one life is lost.  `now` is pygame.time.get_ticks(). -/
def Player.hit (p : Player) (now : Int) : Player :=
  if p.shieldActive && now < p.shieldEndTime then
    { p with shieldActive := false, shieldEndTime := 0 }
  else
    { p with lives := p.lives - 1 }

/-- Player.is_alive. -/
def Player.isAlive (p : Player) : Bool := p.lives > 0

/-- Player.add_life. -/
def Player.addLife (p : Player) : Player := { p with lives := p.lives + 1 }

/-- Player.activate_rapid_fire. -/
def Player.activateRapidFire (p : Player) (currentTime : Int) : Player :=
  { p with rapidFireActive := true,
           rapidFireEndTime := currentTime + RAPID_FIRE_DURATION }

/-- Player.activate_shield. -/
def Player.activateShield (p : Player) (currentTime : Int) : Player :=
  { p with shieldActive := true, shieldEndTime := currentTime + SHIELD_DURATION }

/-- Player.activate_triple_shot. -/
def Player.activateTripleShot (p : Player) : Player :=
  { p with tripleShotActive := true }

/-! ## Enemy (class Enemy in src/src/entities.py)

Enemies are pygame sprites; the `id` field models Python object identity
(used for group membership and the shooter cache, which store references).
Regular enemy sprites are 26x20, elite sprites 30x24 (src/src/sprites.py).
-/

structure Enemy where
  rect : Rect
  row : Nat
  direction : Int
  dropDistance : Int
  isElite : Bool
  id : Nat
deriving DecidableEq, Repr

/-- Enemy.__init__ (animation state omitted: it never affects position). -/
def Enemy.mk0 (x y : Int) (row : Nat) (isElite : Bool) (id : Nat) : Enemy :=
  { rect := { x := x, y := y,
              w := if isElite then 30 else 26,
              h := if isElite then 24 else 20 }
    row := row
    direction := 1
    dropDistance := 0
    isElite := isElite
    id := id }

/-- The horizontal step int(ENEMY_SPEED_X * direction * speed_multiplier)
from Enemy.update.  The float product 1.5 * d is exact, and Python int()
truncates toward zero, which is Int.tdiv by 2 of 3 * d. -/
def Enemy.moveStep (e : Enemy) : Int :=
  if e.isElite then Int.tdiv (3 * (ENEMY_SPEED_X * e.direction)) 2
  else ENEMY_SPEED_X * e.direction

/-- Enemy.update (position part; frame animation is cosmetic): a pending
drop is consumed 2 units per tick and suspends horizontal movement,
otherwise the enemy advances horizontally. -/
def Enemy.update (e : Enemy) : Enemy :=
  if e.dropDistance > 0 then
    { e with rect := { e.rect with y := e.rect.y + min e.dropDistance 2 },
             dropDistance := e.dropDistance - 2 }
  else
    { e with rect := { e.rect with x := e.rect.x + e.moveStep } }

/-- Enemy.reverse_direction: flip the direction sign and queue a fixed
vertical drop of ENEMY_SPEED_Y units. -/
def Enemy.reverseDirection (e : Enemy) : Enemy :=
  { e with direction := e.direction * -1, dropDistance := ENEMY_SPEED_Y }

/-! ## Bullets and bonuses -/

inductive Owner where
  | player | enemy
deriving DecidableEq, Repr

/-- Class Bullet: created via centerx / centery; the sprite is 6x10. -/
structure Bullet where
  rect : Rect
  speed : Int
  owner : Owner
deriving DecidableEq, Repr

def Bullet.mk0 (cx cy speed : Int) (owner : Owner) : Bullet :=
  { rect := { x := cx - BULLET_WIDTH / 2, y := cy - BULLET_HEIGHT / 2,
              w := BULLET_WIDTH, h := BULLET_HEIGHT }
    speed := speed
    owner := owner }

/-- Class Bonus: 36x36 sprite placed by center; shape_type is drawn from
the shared random source (passed in as an oracle by the collision stage). -/
structure Bonus where
  rect : Rect
  shapeType : Nat
  speed : Int
  value : Int
deriving DecidableEq, Repr

def Bonus.mk0 (cx cy : Int) (shapeType : Nat) : Bonus :=
  { rect := { x := cx - 18, y := cy - 18, w := 36, h := 36 }
    shapeType := shapeType
    speed := BONUS_FALL_SPEED
    value := BONUS_SCORE }

/-! ## IEEE-754 double arithmetic for the elite-count formula

create_formation computes
  elite_percentage = 0.1 + (wave - 2) * 0.02
  elite_count = int(total_enemies * min(elite_percentage, 0.3))
in Python float (binary64) arithmetic.  We model the nonnegative doubles
arising there exactly: a `Dbl` with mantissa m and binade exponent e
denotes the real number m * 2 ^ (e - 52), with 2^52 <= m < 2^53 for
nonzero values.  Multiplication, addition and int-from-Nat conversion
round to nearest, ties to even, exactly as binary64 does (the values
involved stay far from overflow and subnormal range). -/

/-- Number of binary digits, by fuel recursion (fuel n suffices). -/
def bitLenAux : Nat → Nat → Nat
  | 0, _ => 0
  | f + 1, n => if n = 0 then 0 else bitLenAux f (n / 2) + 1

def bitLen (n : Nat) : Nat := bitLenAux n n

/-- Round p / 2^s to the nearest integer, ties to even. -/
def rne (p s : Nat) : Nat :=
  if s = 0 then p
  else
    let q := p / 2 ^ s
    let r := p % 2 ^ s
    if r < 2 ^ (s - 1) then q
    else if 2 ^ (s - 1) < r then q + 1
    else if q % 2 = 0 then q else q + 1

/-- A nonnegative binary64 value: m * 2 ^ (e - 52). -/
structure Dbl where
  m : Nat
  e : Int
deriving DecidableEq, Repr

/-- The real value of a `Dbl` (proof-side only). -/
def Dbl.val (d : Dbl) : ℚ := (d.m : ℚ) * (2 : ℚ) ^ (d.e - 52)

/-- Normal form: 53-bit mantissa. -/
def Dbl.norm (d : Dbl) : Prop := 2 ^ 52 ≤ d.m ∧ d.m < 2 ^ 53

/-- binary64 multiplication of nonnegative doubles. -/
def Dbl.mul (a b : Dbl) : Dbl :=
  if a.m = 0 || b.m = 0 then ⟨0, 0⟩
  else
    let p := a.m * b.m
    let sh : Nat := if p ≥ 2 ^ 105 then 53 else 52
    let e : Int := if p ≥ 2 ^ 105 then a.e + b.e + 1 else a.e + b.e
    let m := rne p sh
    if m = 2 ^ 53 then ⟨2 ^ 52, e + 1⟩ else ⟨m, e⟩

/-- binary64 addition of nonnegative doubles, high exponent first. -/
def addAligned (hi lo : Dbl) : Dbl :=
  let d := (hi.e - lo.e).toNat
  let s := hi.m * 2 ^ d + lo.m
  let sh : Nat := if s ≥ 2 ^ (53 + d) then d + 1 else d
  let e : Int := if s ≥ 2 ^ (53 + d) then hi.e + 1 else hi.e
  let m := rne s sh
  if m = 2 ^ 53 then ⟨2 ^ 52, e + 1⟩ else ⟨m, e⟩

/-- binary64 addition of nonnegative doubles. -/
def Dbl.add (a b : Dbl) : Dbl :=
  if a.m = 0 then b
  else if b.m = 0 then a
  else if b.e ≤ a.e then addAligned a b
  else addAligned b a

/-- binary64 conversion of a Python int (round to nearest, ties even). -/
def Dbl.ofNat (n : Nat) : Dbl :=
  if n = 0 then ⟨0, 0⟩
  else
    let L := bitLen n
    if L ≤ 53 then ⟨n * 2 ^ (53 - L), (L : Int) - 1⟩
    else
      let m := rne n (L - 53)
      if m = 2 ^ 53 then ⟨2 ^ 52, (L : Int)⟩ else ⟨m, (L : Int) - 1⟩

/-- Comparison of values. -/
def Dbl.le (a b : Dbl) : Bool :=
  if a.e ≤ b.e then decide (a.m ≤ b.m * 2 ^ (b.e - a.e).toNat)
  else decide (a.m * 2 ^ (a.e - b.e).toNat ≤ b.m)

/-- Python min of two floats: the second argument only replaces the
first when it is strictly smaller. -/
def Dbl.pymin (a b : Dbl) : Dbl := if Dbl.le a b then a else b

/-- Python int() of a nonnegative double: truncation. -/
def Dbl.toIntTrunc (d : Dbl) : Nat :=
  if 52 ≤ d.e then d.m * 2 ^ (d.e - 52).toNat
  else d.m / 2 ^ (52 - d.e).toNat

/-- The double literal 0.1 of the source. -/
def dbl01 : Dbl := ⟨7205759403792794, -4⟩

/-- The double literal 0.02 of the source. -/
def dbl002 : Dbl := ⟨5764607523034235, -6⟩

/-- The double literal 0.3 of the source. -/
def dbl03 : Dbl := ⟨5404319552844595, -2⟩

/-- The elite count computed by EnemyGroup.create_formation:
0 below wave 2, otherwise
int(ENEMY_ROWS * ENEMY_COLS * min(0.1 + (wave - 2) * 0.02, 0.3))
in binary64 arithmetic. -/
def eliteCount (wave : Nat) : Nat :=
  if 2 ≤ wave then
    let pct := Dbl.add dbl01 (Dbl.mul (Dbl.ofNat (wave - 2)) dbl002)
    Dbl.toIntTrunc (Dbl.mul (Dbl.ofNat (ENEMY_ROWS * ENEMY_COLS)) (Dbl.pymin pct dbl03))
  else 0

/-! ## Enemy formation (class EnemyGroup in src/src/entities.py) -/

structure EnemyGroup where
  enemies : List Enemy
  movingRight : Bool
  dropTimer : Int
  frozen : Bool
  freezeEndTime : Int
  /-- The _bottom_enemies_cache list, modelled by object identity. -/
  bottomCache : List Nat
  cacheDirty : Bool
deriving DecidableEq, Repr

def EnemyGroup.init : EnemyGroup :=
  { enemies := []
    movingRight := true
    dropTimer := 0
    frozen := false
    freezeEndTime := 0
    bottomCache := []
    cacheDirty := true }

/-- The row-major grid positions (x, y, row) built by create_formation. -/
def formationPositions : List (Int × Int × Nat) :=
  (List.range ENEMY_ROWS).flatMap (fun row =>
    (List.range ENEMY_COLS).map (fun col =>
      ((col : Int) * ENEMY_SPACING_X + 50,
       (row : Int) * ENEMY_SPACING_Y + ENEMY_START_Y,
       row)))

/-- EnemyGroup.create_formation.  The call
random.sample(positions, elite_count) is modelled by the oracle `sample`:
a duplicate-free sublist of the positions whose length is the computed
elite count (hypotheses of the theorems below).  Each cell is elite iff
its position tuple is a member of the sample, exactly as in the source. -/
def mkFormationEnemies (sample : List (Int × Int × Nat)) :
    List (Int × Int × Nat) → Nat → List Enemy
  | [], _ => []
  | p :: rest, k =>
      Enemy.mk0 p.1 p.2.1 p.2.2 (decide (p ∈ sample)) k ::
        mkFormationEnemies sample rest (k + 1)

def EnemyGroup.createFormation (g : EnemyGroup) (sample : List (Int × Int × Nat)) :
    EnemyGroup :=
  { g with enemies := mkFormationEnemies sample formationPositions 0,
           cacheDirty := true }

/-- EnemyGroup.freeze. -/
def EnemyGroup.freeze (g : EnemyGroup) (now duration : Int) : EnemyGroup :=
  { g with frozen := true, freezeEndTime := now + duration }

/-- EnemyGroup.is_empty. -/
def EnemyGroup.isEmpty (g : EnemyGroup) : Bool := g.enemies.length == 0

/-- EnemyGroup.check_player_collision. -/
def EnemyGroup.checkPlayerCollision (g : EnemyGroup) (playerRect : Rect) : Bool :=
  g.enemies.any (fun e => e.rect.bottom > playerRect.top - 50)

/-- The edge-violation test from EnemyGroup.update. -/
def Enemy.hitsEdge (e : Enemy) : Bool :=
  (e.rect.right ≥ SCREEN_WIDTH - 10 && e.direction > 0) ||
  (e.rect.left ≤ 10 && e.direction < 0)

/-- EnemyGroup.update: clear an expired freeze; if (still) frozen do
nothing; otherwise reverse the whole formation when any member violates
an edge bound, then move every member, then mark the shooter cache dirty
when the member count differs from the cached list's length. -/
def EnemyGroup.update (g : EnemyGroup) (now : Int) : EnemyGroup :=
  let g := if g.frozen && now > g.freezeEndTime then { g with frozen := false } else g
  if g.frozen then g
  else
    let hitEdge := g.enemies.any Enemy.hitsEdge
    let es1 := if hitEdge then g.enemies.map Enemy.reverseDirection else g.enemies
    let es2 := es1.map Enemy.update
    let dirty := if es2.length ≠ g.bottomCache.length then true else g.cacheDirty
    { g with enemies := es2, cacheDirty := dirty }

/-- Bucket insertion preserving first-occurrence key order, as a Python
dict of lists does. -/
def insertBucket : List (Int × List Enemy) → Int → Enemy → List (Int × List Enemy)
  | [], k, e => [(k, [e])]
  | (k0, l) :: rest, k, e =>
      if k0 = k then (k0, l ++ [e]) :: rest
      else (k0, l) :: insertBucket rest k e

/-- The per-column grouping from get_bottom_enemies:
col = rect.centerx // ENEMY_SPACING_X (Python floor division; the Lean
Int division rounds the same way for the positive divisor 70). -/
def bucketize (es : List Enemy) : List (Int × List Enemy) :=
  es.foldl (fun acc e => insertBucket acc (e.rect.centerx / ENEMY_SPACING_X) e) []

/-- Python max(enemies, key=lambda e: e.rect.bottom): the first maximal
element of a nonempty list. -/
def maxByBottom : List Enemy → Option Enemy
  | [] => none
  | h :: t => some (t.foldl (fun best e =>
      if e.rect.bottom > best.rect.bottom then e else best) h)

/-- The recomputation path of get_bottom_enemies: lowest member of each
column bucket, buckets in first-occurrence order. -/
def recomputeBottomEnemies (es : List Enemy) : List Enemy :=
  (bucketize es).filterMap (fun b => maxByBottom b.2)

/-- Sprite.alive(): membership in some group; an enemy reference is alive
iff its object is still in the formation. -/
def aliveIn (es : List Enemy) (i : Nat) : Bool := es.any (fun e => e.id == i)

/-- EnemyGroup.get_bottom_enemies, including the cache fast path: when
the cache is clean and nonempty, dead references are filtered out and the
filtered cache is returned if anything is left; otherwise the bottom set
is recomputed and cached.  Returns the shooter list and the mutated
group. -/
def EnemyGroup.getBottomEnemies (g : EnemyGroup) : List Enemy × EnemyGroup :=
  let recompute :=
    let bottoms := recomputeBottomEnemies g.enemies
    (bottoms, { g with bottomCache := bottoms.map Enemy.id, cacheDirty := false })
  if !g.cacheDirty && !g.bottomCache.isEmpty then
    let c := g.bottomCache.filter (aliveIn g.enemies)
    if !c.isEmpty then
      (c.filterMap (fun i => g.enemies.find? (fun e => e.id == i)),
       { g with bottomCache := c })
    else recompute
  else recompute

/-- Modelled from the spec: get_shooters() returns the single lowest
(max-bottom) member per horizontal column-bucket
(bucket = centerx / column_spacing), recomputed from the live members
with no cache.  Comparison target for the refinement claim C8. -/
def specShooters (es : List Enemy) : List Enemy :=
  (bucketize es).filterMap (fun b => maxByBottom b.2)

/-! ## Collision pipeline (Game.check_collisions in src/src/game.py) -/

/-- State threaded through stage 1 (player bullets x enemies).
`rolls` is the shared pseudo-random source, as the oracle answers to the
per-kill test random.random() < BONUS_SPAWN_CHANCE (rollIdx draws made so
far) and to the Bonus shape draw random.randint(0, 4). -/
structure Stage1State where
  enemies : List Enemy
  liveBullets : List Bullet
  score : Int
  explosions : List (Int × Int)
  bonuses : List Bonus
  rolls : Nat → Bool
  shapes : Nat → Nat
  rollIdx : Nat
  shapeIdx : Nat

/-- The per-killed-enemy block of stage 1: award ENEMY_SCORE, spawn an
explosion at the enemy center when particles are enabled, and draw one
bonus-spawn roll, spawning a Bonus at the enemy center when it succeeds. -/
def killEffect (particles : Bool) (st : Stage1State) (e : Enemy) : Stage1State :=
  let st := { st with score := st.score + ENEMY_SCORE }
  let st :=
    if particles then
      { st with explosions := st.explosions ++ [(e.rect.centerx, e.rect.centery)] }
    else st
  if st.rolls st.rollIdx then
    { st with
      bonuses := st.bonuses ++ [Bonus.mk0 e.rect.centerx e.rect.centery (st.shapes st.shapeIdx)]
      rollIdx := st.rollIdx + 1
      shapeIdx := st.shapeIdx + 1 }
  else
    { st with rollIdx := st.rollIdx + 1 }

/-- Stage 1 for one player bullet: pygame.sprite.spritecollide with
dokill=True removes every enemy the bullet overlaps; when at least one
was hit the bullet is killed too and each killed enemy produces its kill
effects in order. -/
def processBullet (particles : Bool) (st : Stage1State) (b : Bullet) : Stage1State :=
  let hits := st.enemies.filter (fun e => b.rect.colliderect e.rect)
  let st := { st with enemies := st.enemies.filter (fun e => !(b.rect.colliderect e.rect)) }
  if hits.isEmpty then { st with enemies := st.enemies, liveBullets := st.liveBullets ++ [b] }
  else hits.foldl (killEffect particles) st

/-- Stage 1 over the snapshot of live player bullets. -/
def stage1 (particles : Bool) (bullets : List Bullet) (st : Stage1State) : Stage1State :=
  bullets.foldl (processBullet particles) st

/-- Stage 2 (enemy bullets x player): every overlapping enemy bullet is
despawned and, when there was at least one, Player.hit is invoked exactly
once and one explosion is spawned at the player position (when particles
are enabled), regardless of the shield outcome.  Returns the player, the
surviving enemy bullets, and the explosions spawned. -/
def stage2 (particles : Bool) (p : Player) (ebullets : List Bullet) (now : Int) :
    Player × List Bullet × List (Int × Int) :=
  let hits := ebullets.filter (fun b => p.rect.colliderect b.rect)
  let remaining := ebullets.filter (fun b => !(p.rect.colliderect b.rect))
  if hits.isEmpty then (p, remaining, [])
  else
    (p.hit now, remaining,
     if particles then [(p.rect.centerx, p.rect.centery)] else [])

/-- Game.apply_bonus_effect on the (player, formation) pair. -/
def applyBonusEffect (p : Player) (g : EnemyGroup) (bonusType : Nat) (now : Int) :
    Player × EnemyGroup :=
  if bonusType = 0 then ({ p.addLife with score := p.addLife.score + BONUS_SCORE }, g)
  else if bonusType = 1 then
    ({ p with score := p.score + BONUS_SCORE }, g.freeze now FREEZE_DURATION)
  else if bonusType = 2 then
    ({ p.activateTripleShot with score := p.score + BONUS_SCORE }, g)
  else if bonusType = 3 then
    ({ p.activateShield now with score := p.score + BONUS_SCORE }, g)
  else if bonusType = 4 then
    ({ p.activateRapidFire now with score := p.score + BONUS_SCORE }, g)
  else (p, g)

/-! ## Session / wave controller (Game in src/src/game.py) -/

structure SessionState where
  state : GameState
  player : Player
  enemyGroup : EnemyGroup
  highScore : Int
deriving Repr

/-- Game.save_high_score. -/
def saveHighScore (s : SessionState) : SessionState :=
  if s.player.score > s.highScore then { s with highScore := s.player.score } else s

/-- Game._handle_game_over (sound and visual calls omitted). -/
def handleGameOver (s : SessionState) : SessionState :=
  saveHighScore { s with state := GameState.GAME_OVER }

/-- Game._handle_wave_clear: enter WAVE_CLEAR and award the fixed
wave-clear bonus. -/
def handleWaveClear (s : SessionState) : SessionState :=
  { s with state := GameState.WAVE_CLEAR,
           player := { s.player with score := s.player.score + WAVE_CLEAR_BONUS } }

/-- Game._check_game_over_conditions: the three terminal conditions in
their fixed priority order. -/
def checkGameOverConditions (s : SessionState) : SessionState :=
  if !s.player.isAlive then handleGameOver s
  else if s.enemyGroup.checkPlayerCollision s.player.rect then
    handleGameOver { s with player := { s.player with lives := 0 } }
  else if s.enemyGroup.isEmpty then handleWaveClear s
  else s

/-- The caller-side freeze guard of Game.enemy_shoot: a frozen formation
fires nothing; otherwise the shooter set is the get_bottom_enemies
result. -/
def enemyShootShooters (g : EnemyGroup) : List Enemy × EnemyGroup :=
  if g.frozen then ([], g) else g.getBottomEnemies

/-! ## Concrete scenario states -/

/-- The fresh 5x10 wave-1 formation (no elites: the wave-1 sample is
empty, matching elite_count = 0). -/
def waveOneGroup : EnemyGroup := EnemyGroup.init.createFormation []

/-- A player bullet placed exactly at the center (63, 60) of the first
enemy of the fresh formation. -/
def scenarioBullet : Bullet := Bullet.mk0 63 60 (-BULLET_SPEED) Owner.player

/-- Stage-1 input state for end-to-end scenario A. -/
def scenarioStage1Init : Stage1State :=
  { enemies := waveOneGroup.enemies
    liveBullets := []
    score := 0
    explosions := []
    bonuses := []
    rolls := fun _ => false
    shapes := fun _ => 0
    rollIdx := 0
    shapeIdx := 0 }

/-- A three-enemy remnant of a formation: column 0 holds enemies with
ids 0 (upper) and 1 (lower), column 1 holds the enemy with id 2.  The
shooter cache is about to be recomputed. -/
def remnantGroup : EnemyGroup :=
  { EnemyGroup.init with
    enemies := [Enemy.mk0 50 50 0 false 0, Enemy.mk0 50 90 1 false 1,
                Enemy.mk0 120 50 0 false 2]
    cacheDirty := true }

/-! ## Claims C4 and C5 -/

/-- C4: with the shield active and unexpired, one hit() clears the shield
and leaves lives unchanged, and a second hit() immediately after decrements
lives by exactly 1 (the second hit sees the shield inactive, at any time). -/
theorem shield_consumption_idempotent (p : Player) (now later : Int)
    (hact : p.shieldActive = true) (hunexp : now < p.shieldEndTime) :
    (p.hit now).lives = p.lives ∧
    (p.hit now).shieldActive = false ∧
    ((p.hit now).hit later).lives = p.lives - 1 := by
  unfold Player.hit
  simp [hact, hunexp]

/-- Witness for C4 at a concrete player state. -/
theorem shield_consumption_idempotent_witness :
    ((Player.activateShield (Player.mk0 400 550) 1000).hit 2000).lives = 3 ∧
    (((Player.activateShield (Player.mk0 400 550) 1000).hit 2000).hit 2001).lives = 2 := by
  have h := shield_consumption_idempotent
    (Player.activateShield (Player.mk0 400 550) 1000) 2000 2001
    (by decide) (by decide)
  exact ⟨h.1, h.2.2⟩

/-- C5: can_shoot(now) holds iff now - last_shot exceeds the effective
cooldown (C / 3 with rapid fire active and unexpired, C otherwise); with
rapid fire active and unexpired at both probe times, shooting at
last_shot + C/3 - 1 is rejected and at last_shot + C/3 + 1 allowed. -/
theorem rapid_fire_cadence (p : Player) (now : Int)
    (hact : p.rapidFireActive = true)
    (hwin : p.lastShotTime + PLAYER_SHOOT_COOLDOWN / 3 + 1 < p.rapidFireEndTime) :
    (p.canShoot now = true ↔
      now - p.lastShotTime >
        (if p.rapidFireActive = true ∧ now < p.rapidFireEndTime then
          PLAYER_SHOOT_COOLDOWN / 3
        else PLAYER_SHOOT_COOLDOWN)) ∧
    p.canShoot (p.lastShotTime + PLAYER_SHOOT_COOLDOWN / 3 - 1) = false ∧
    p.canShoot (p.lastShotTime + PLAYER_SHOOT_COOLDOWN / 3 + 1) = true := by
  have hc : PLAYER_SHOOT_COOLDOWN / 3 = 83 := by decide
  rw [hc] at hwin ⊢
  refine ⟨?_, ?_, ?_⟩
  · unfold Player.canShoot
    by_cases h2 : now < p.rapidFireEndTime
    · simp [hact, h2, hc]
    · simp [hact, h2, hc]
  · unfold Player.canShoot
    have hlt : p.lastShotTime + 83 - 1 < p.rapidFireEndTime := by omega
    rw [hc]
    simp [hact, hlt]
    omega
  · unfold Player.canShoot
    have hlt : p.lastShotTime + 83 + 1 < p.rapidFireEndTime := hwin
    rw [hc]
    simp [hact, hlt]
    omega

/-- Witness for C5 at a concrete player state (rapid fire collected at
time 1000, last shot at time 1000). -/
theorem rapid_fire_cadence_witness :
    (Player.activateRapidFire { Player.mk0 400 550 with lastShotTime := 1000 } 1000).canShoot
      (1000 + PLAYER_SHOOT_COOLDOWN / 3 - 1) = false ∧
    (Player.activateRapidFire { Player.mk0 400 550 with lastShotTime := 1000 } 1000).canShoot
      (1000 + PLAYER_SHOOT_COOLDOWN / 3 + 1) = true := by
  have h := rapid_fire_cadence
    (Player.activateRapidFire { Player.mk0 400 550 with lastShotTime := 1000 } 1000) 0
    (by decide) (by decide)
  exact ⟨h.2.1, h.2.2⟩

/-! ## Claim C1: terminal condition priority -/

/-- C1: after collision resolution exactly one of the three terminal
conditions fires, in fixed priority order: dead player beats
formation-touches-player-zone beats formation-cleared; the zone condition
forces lives to 0; only the cleared condition awards the wave-clear
bonus; with lives at 0 and the formation cleared in the same tick the
session goes to GAME_OVER, never WAVE_CLEAR, and no condition true leaves
the session unchanged. -/
theorem terminal_condition_priority (s : SessionState) :
    (s.player.lives ≤ 0 →
      (checkGameOverConditions s).state = GameState.GAME_OVER ∧
      (checkGameOverConditions s).player.score = s.player.score) ∧
    (0 < s.player.lives →
      s.enemyGroup.checkPlayerCollision s.player.rect = true →
      (checkGameOverConditions s).state = GameState.GAME_OVER ∧
      (checkGameOverConditions s).player.lives = 0 ∧
      (checkGameOverConditions s).player.score = s.player.score) ∧
    (0 < s.player.lives →
      s.enemyGroup.checkPlayerCollision s.player.rect = false →
      s.enemyGroup.isEmpty = true →
      (checkGameOverConditions s).state = GameState.WAVE_CLEAR ∧
      (checkGameOverConditions s).player.score = s.player.score + WAVE_CLEAR_BONUS) ∧
    (0 < s.player.lives →
      s.enemyGroup.checkPlayerCollision s.player.rect = false →
      s.enemyGroup.isEmpty = false →
      checkGameOverConditions s = s) ∧
    (s.player.lives ≤ 0 → s.enemyGroup.isEmpty = true →
      (checkGameOverConditions s).state = GameState.GAME_OVER) := by
  unfold checkGameOverConditions handleGameOver handleWaveClear saveHighScore
    Player.isAlive
  refine ⟨?_, ?_, ?_, ?_, ?_⟩
  · intro h
    have hb : ¬ (s.player.lives > 0) := by omega
    by_cases hs : s.player.score > s.highScore <;> simp [hb, hs]
  · intro h hc
    by_cases hs : s.player.score > s.highScore <;> simp [h, hc, hs]
  · intro h hc he
    simp [h, hc, he]
  · intro h hc he
    simp [h, hc, he]
  · intro h _
    have hb : ¬ (s.player.lives > 0) := by omega
    by_cases hs : s.player.score > s.highScore <;> simp [hb, hs]

/-- Witness for C1: lives 0 and formation cleared in the same tick at a
concrete state gives GAME_OVER. -/
theorem terminal_condition_priority_witness :
    (checkGameOverConditions
      { state := GameState.PLAYING
        player := { Player.mk0 400 550 with lives := 0 }
        enemyGroup := EnemyGroup.init
        highScore := 0 }).state = GameState.GAME_OVER :=
  (terminal_condition_priority
    { state := GameState.PLAYING
      player := { Player.mk0 400 550 with lives := 0 }
      enemyGroup := EnemyGroup.init
      highScore := 0 }).2.2.2.2 (by decide) (by decide)

/-! ## Claim C2: atomic formation reversal -/

/-- C2: in an unfrozen formation where at least one member violates an
edge bound, a tick reverses and then moves every member: afterwards each
member is the updated reversal of the corresponding old member, every
member's direction has flipped sign, and every member carries a strictly
positive pending drop (ENEMY_SPEED_Y reduced by the 2 units consumed on
the reversal tick). -/
theorem formation_reversal_atomic (g : EnemyGroup) (now : Int)
    (hf : g.frozen = false) (hedge : ∃ e ∈ g.enemies, e.hitsEdge = true) :
    (g.update now).enemies = g.enemies.map (fun e => e.reverseDirection.update) ∧
    ∀ e ∈ g.enemies,
      e.reverseDirection.update.direction = -e.direction ∧
      e.reverseDirection.update.dropDistance > 0 := by
  constructor
  · have hany : g.enemies.any Enemy.hitsEdge = true := by
      rcases hedge with ⟨e, he, hv⟩
      exact List.any_eq_true.mpr ⟨e, he, hv⟩
    unfold EnemyGroup.update
    simp [hf, hany, Function.comp]
  · intro e _
    unfold Enemy.update Enemy.reverseDirection
    constructor
    · simp [ENEMY_SPEED_Y]
    · simp [ENEMY_SPEED_Y]

/-- Witness for C2: a one-member formation touching the right margin. -/
theorem formation_reversal_atomic_witness :
    ({ EnemyGroup.init with
        enemies := [Enemy.mk0 780 100 0 false 0] }.update 0).enemies =
      [(Enemy.mk0 780 100 0 false 0).reverseDirection.update] ∧
    (Enemy.mk0 780 100 0 false 0).reverseDirection.update.direction = -1 ∧
    (Enemy.mk0 780 100 0 false 0).reverseDirection.update.dropDistance > 0 := by
  have h := formation_reversal_atomic
    { EnemyGroup.init with enemies := [Enemy.mk0 780 100 0 false 0] } 0
    (by decide) ⟨Enemy.mk0 780 100 0 false 0, by decide, by decide⟩
  refine ⟨h.1, ?_, (h.2 _ (by decide)).2⟩
  have := (h.2 (Enemy.mk0 780 100 0 false 0) (by decide)).1
  simpa using this

/-! ## Claim C6: freeze suspends movement and shooting -/

/-- C6: freezing at time T for d ms makes every tick at a time up to
T + d leave every member unmoved (indeed the whole member list unchanged,
also across any sequence of such ticks) with the frozen flag still set,
and while the flag is set the enemy-shoot caller fires nothing; a tick
strictly after T + d behaves exactly like a tick of the unfrozen
formation, so movement resumes. -/
theorem freeze_suspends_formation (g : EnemyGroup) (T d : Int) :
    (∀ t : Int, t ≤ T + d →
      ((g.freeze T d).update t).enemies = (g.freeze T d).enemies ∧
      ((g.freeze T d).update t).frozen = true ∧
      (enemyShootShooters ((g.freeze T d).update t)).1 = []) ∧
    (∀ ts : List Int, (∀ t ∈ ts, t ≤ T + d) →
      (ts.foldl EnemyGroup.update (g.freeze T d)).enemies = (g.freeze T d).enemies) ∧
    (∀ t : Int, T + d < t →
      (g.freeze T d).update t =
        EnemyGroup.update { g.freeze T d with frozen := false } t) := by
  have hstep : ∀ (h : EnemyGroup), h.frozen = true → h.freezeEndTime = T + d →
      ∀ t : Int, t ≤ T + d →
        h.update t = h := by
    intro h hf he t ht
    unfold EnemyGroup.update
    have : ¬ (t > h.freezeEndTime) := by omega
    simp [hf, this]
  refine ⟨?_, ?_, ?_⟩
  · intro t ht
    have h1 := hstep (g.freeze T d) (by simp [EnemyGroup.freeze])
      (by simp [EnemyGroup.freeze]) t ht
    rw [h1]
    refine ⟨rfl, by simp [EnemyGroup.freeze], ?_⟩
    unfold enemyShootShooters
    simp [EnemyGroup.freeze]
  · intro ts hts
    induction ts with
    | nil => rfl
    | cons t ts ih =>
        have h1 := hstep (g.freeze T d) (by simp [EnemyGroup.freeze])
          (by simp [EnemyGroup.freeze]) t (hts t (List.mem_cons_self t ts))
        simp only [List.foldl_cons, h1]
        exact ih (fun u hu => hts u (List.mem_cons_of_mem t hu))
  · intro t ht
    unfold EnemyGroup.update
    have h2 : T + d < t := ht
    simp [EnemyGroup.freeze, h2]

/-- Witness for C6 with the fixed 5000 ms freeze duration: ticks at
T .. T+4999 (and the tick at exactly T+5000) keep a concrete formation
still, a tick at T+5001 equals the unfrozen tick. -/
theorem freeze_suspends_formation_witness :
    (({ EnemyGroup.init with
        enemies := [Enemy.mk0 400 100 0 false 0] }.freeze 1000 FREEZE_DURATION).update
          5999).enemies =
      ({ EnemyGroup.init with
        enemies := [Enemy.mk0 400 100 0 false 0] }.freeze 1000 FREEZE_DURATION).enemies ∧
    (([(1000 : Int), 2000, 5999].foldl EnemyGroup.update
      ({ EnemyGroup.init with
        enemies := [Enemy.mk0 400 100 0 false 0] }.freeze 1000 FREEZE_DURATION)).enemies =
      ({ EnemyGroup.init with
        enemies := [Enemy.mk0 400 100 0 false 0] }.freeze 1000 FREEZE_DURATION).enemies) ∧
    (({ EnemyGroup.init with
        enemies := [Enemy.mk0 400 100 0 false 0] }.freeze 1000 FREEZE_DURATION).update
          6001 =
      EnemyGroup.update
        { { EnemyGroup.init with
            enemies := [Enemy.mk0 400 100 0 false 0] }.freeze 1000 FREEZE_DURATION with
          frozen := false } 6001) := by
  have h := freeze_suspends_formation
    { EnemyGroup.init with enemies := [Enemy.mk0 400 100 0 false 0] } 1000 FREEZE_DURATION
  exact ⟨(h.1 5999 (by decide)).1,
         h.2.1 [1000, 2000, 5999] (by intro t ht; fin_cases ht <;> decide),
         h.2.2 6001 (by decide)⟩

/-! ## Claim C9: elite horizontal speed -/

/-- C9 counterexample: at the configured base speed ENEMY_SPEED_X = 1,
an elite member's per-tick horizontal displacement (int-truncated
1.5 x base) does NOT have strictly greater magnitude than a regular
member's: both move exactly 1 unit. -/
theorem elite_speed_counterexample :
    ¬ (((Enemy.mk0 100 100 0 true 0).update.rect.x - 100).natAbs >
       ((Enemy.mk0 100 100 0 false 1).update.rect.x - 100).natAbs) := by
  decide

/-- C9 amended: an elite member with no pending drop advances by the
integer truncation of 1.5 x the base step, which at the configured base
speed has the same magnitude (1) as a regular member's step, not a
strictly greater one. -/
theorem elite_speed_truncated (e : Enemy)
    (hd : e.direction = 1 ∨ e.direction = -1)
    (hdrop : ¬ e.dropDistance > 0) (helite : e.isElite = true) :
    e.update.rect.x - e.rect.x = Int.tdiv (3 * (ENEMY_SPEED_X * e.direction)) 2 ∧
    (e.update.rect.x - e.rect.x).natAbs = (ENEMY_SPEED_X * e.direction).natAbs := by
  unfold Enemy.update Enemy.moveStep
  rcases hd with h1 | h1 <;>
    simp [hdrop, helite, h1, ENEMY_SPEED_X]

/-- Witness for C9's amended statement at a concrete elite enemy. -/
theorem elite_speed_truncated_witness :
    (Enemy.mk0 100 100 0 true 0).update.rect.x - 100 =
      Int.tdiv (3 * (ENEMY_SPEED_X * 1)) 2 ∧
    ((Enemy.mk0 100 100 0 true 0).update.rect.x - 100).natAbs =
      (ENEMY_SPEED_X * 1).natAbs := by
  have h := elite_speed_truncated (Enemy.mk0 100 100 0 true 0)
    (Or.inl rfl) (by decide) (by decide)
  simpa using h

/-! ## Claim C10: at most one hit resolution per tick -/

/-- C10: stage 2 of the collision pipeline despawns every enemy bullet
overlapping the player this tick but invokes Player.hit exactly once for
the whole group, so lives drop by at most 1 per tick, and with an active
unexpired shield no life is lost (one shield charge absorbs the whole
group of simultaneous hits). -/
theorem single_hit_resolution_per_tick (particles : Bool) (p : Player)
    (bs : List Bullet) (now : Int) :
    ((stage2 particles p bs now).1.lives ≥ p.lives - 1 ∧
     (stage2 particles p bs now).1.lives ≤ p.lives) ∧
    (stage2 particles p bs now).2.1 =
      bs.filter (fun b => !(p.rect.colliderect b.rect)) ∧
    (∀ b ∈ (stage2 particles p bs now).2.1, p.rect.colliderect b.rect = false) ∧
    (p.shieldActive = true → now < p.shieldEndTime →
      (stage2 particles p bs now).1.lives = p.lives) := by
  have hmem : ∀ b ∈ bs.filter (fun b => !(p.rect.colliderect b.rect)),
      p.rect.colliderect b.rect = false := by
    intro b hb
    have := List.of_mem_filter hb
    simpa using this
  have hres : stage2 particles p bs now =
      (if (bs.filter (fun b => p.rect.colliderect b.rect)).isEmpty then p
       else p.hit now,
       bs.filter (fun b => !(p.rect.colliderect b.rect)),
       if (bs.filter (fun b => p.rect.colliderect b.rect)).isEmpty then []
       else if particles then [(p.rect.centerx, p.rect.centery)] else []) := by
    unfold stage2
    by_cases hh : (bs.filter (fun b => p.rect.colliderect b.rect)).isEmpty <;>
      simp [hh]
  rw [hres]
  refine ⟨?_, rfl, hmem, ?_⟩
  · by_cases hh : (bs.filter (fun b => p.rect.colliderect b.rect)).isEmpty
    · simp [hh]
    · simp only [hh, Bool.false_eq_true, if_false]
      unfold Player.hit
      by_cases hs : (p.shieldActive && decide (now < p.shieldEndTime)) = true
      · rw [if_pos hs]
        show p.lives ≥ p.lives - 1 ∧ p.lives ≤ p.lives
        omega
      · rw [if_neg hs]
        show p.lives - 1 ≥ p.lives - 1 ∧ p.lives - 1 ≤ p.lives
        omega
  · intro h1 h2
    by_cases hh : (bs.filter (fun b => p.rect.colliderect b.rect)).isEmpty
    · simp [hh]
    · simp only [hh, Bool.false_eq_true, if_false]
      unfold Player.hit
      simp [h1, h2]

/-- Witness for C10: three bullets all overlapping the player in the
same tick cost exactly one life. -/
theorem single_hit_resolution_per_tick_witness :
    (stage2 true (Player.mk0 400 550)
      [Bullet.mk0 400 550 3 Owner.enemy, Bullet.mk0 405 550 3 Owner.enemy,
       Bullet.mk0 395 550 3 Owner.enemy] 0).1.lives ≥ (Player.mk0 400 550).lives - 1 ∧
    (stage2 true (Player.mk0 400 550)
      [Bullet.mk0 400 550 3 Owner.enemy, Bullet.mk0 405 550 3 Owner.enemy,
       Bullet.mk0 395 550 3 Owner.enemy] 0).2.1 = [] := by
  have h := single_hit_resolution_per_tick true (Player.mk0 400 550)
    [Bullet.mk0 400 550 3 Owner.enemy, Bullet.mk0 405 550 3 Owner.enemy,
     Bullet.mk0 395 550 3 Owner.enemy] 0
  refine ⟨h.1.1, ?_⟩
  rw [h.2.1]
  decide

/-! ## Claim C3: player-bullet x enemy resolution -/

/-- Per-kill effects of stage 1, componentwise. -/
lemma killEffect_components (particles : Bool) (st : Stage1State) (e : Enemy) :
    (killEffect particles st e).enemies = st.enemies ∧
    (killEffect particles st e).liveBullets = st.liveBullets ∧
    (killEffect particles st e).score = st.score + ENEMY_SCORE ∧
    (killEffect particles st e).rollIdx = st.rollIdx + 1 ∧
    (particles = true →
      (killEffect particles st e).explosions.length = st.explosions.length + 1) := by
  unfold killEffect
  by_cases hp : particles = true <;>
    by_cases hr : st.rolls st.rollIdx = true <;>
      simp [hp, hr]

/-- Folding the per-kill effects over a list of killed enemies. -/
lemma killEffect_foldl (particles : Bool) (l : List Enemy) (st : Stage1State) :
    (l.foldl (killEffect particles) st).enemies = st.enemies ∧
    (l.foldl (killEffect particles) st).liveBullets = st.liveBullets ∧
    (l.foldl (killEffect particles) st).score = st.score + ENEMY_SCORE * l.length ∧
    (l.foldl (killEffect particles) st).rollIdx = st.rollIdx + l.length ∧
    (particles = true →
      (l.foldl (killEffect particles) st).explosions.length =
        st.explosions.length + l.length) := by
  induction l generalizing st with
  | nil => simp
  | cons e t ih =>
      have hk := killEffect_components particles st e
      have ht := ih (killEffect particles st e)
      refine ⟨?_, ?_, ?_, ?_, ?_⟩
      · simp only [List.foldl_cons]
        rw [ht.1, hk.1]
      · simp only [List.foldl_cons]
        rw [ht.2.1, hk.2.1]
      · simp only [List.foldl_cons]
        rw [ht.2.2.1, hk.2.2.1]
        simp [List.length_cons]
        ring
      · simp only [List.foldl_cons]
        rw [ht.2.2.2.1, hk.2.2.2.1]
        simp [List.length_cons]
        omega
      · intro hp
        simp only [List.foldl_cons]
        rw [ht.2.2.2.2 hp, hk.2.2.2.2 hp]
        simp [List.length_cons]
        omega

/-- C3: a live player bullet overlapping at least one live enemy is
despawned together with every enemy it overlapped, awarding ENEMY_SCORE,
spawning one explosion (particles on) and drawing one bonus-spawn roll
per enemy killed; concretely, a bullet at the center of one enemy of the
fresh 5x10 wave-1 formation brings the enemy count from 50 to 49, adds
exactly ENEMY_SCORE to the score and spawns exactly one explosion. -/
theorem player_bullet_enemy_resolution :
    (∀ (particles : Bool) (st : Stage1State) (b : Bullet),
      st.enemies.filter (fun e => b.rect.colliderect e.rect) ≠ [] →
      (processBullet particles st b).enemies =
        st.enemies.filter (fun e => !(b.rect.colliderect e.rect)) ∧
      (processBullet particles st b).liveBullets = st.liveBullets ∧
      (processBullet particles st b).score = st.score +
        ENEMY_SCORE * (st.enemies.filter (fun e => b.rect.colliderect e.rect)).length ∧
      (processBullet particles st b).rollIdx = st.rollIdx +
        (st.enemies.filter (fun e => b.rect.colliderect e.rect)).length ∧
      (particles = true →
        (processBullet particles st b).explosions.length = st.explosions.length +
          (st.enemies.filter (fun e => b.rect.colliderect e.rect)).length)) ∧
    scenarioStage1Init.enemies.length = 50 ∧
    (stage1 true [scenarioBullet] scenarioStage1Init).enemies.length = 49 ∧
    (stage1 true [scenarioBullet] scenarioStage1Init).score = ENEMY_SCORE ∧
    (stage1 true [scenarioBullet] scenarioStage1Init).explosions.length = 1 ∧
    (stage1 true [scenarioBullet] scenarioStage1Init).liveBullets = [] := by
  constructor
  · intro particles st b hne
    have hempty : (st.enemies.filter (fun e => b.rect.colliderect e.rect)).isEmpty = false := by
      cases h : st.enemies.filter (fun e => b.rect.colliderect e.rect) with
      | nil => exact absurd h hne
      | cons x xs => simp
    unfold processBullet
    simp only [hempty, Bool.false_eq_true, if_false]
    have hf := killEffect_foldl particles
      (st.enemies.filter (fun e => b.rect.colliderect e.rect))
      { st with enemies := st.enemies.filter (fun e => !(b.rect.colliderect e.rect)) }
    exact ⟨hf.1, hf.2.1, hf.2.2.1, hf.2.2.2.1, hf.2.2.2.2⟩
  · refine ⟨by decide, ?_, ?_, ?_, ?_⟩ <;> decide

/-- Witness for C3 at the scenario input. -/
theorem player_bullet_enemy_resolution_witness :
    (processBullet true scenarioStage1Init scenarioBullet).liveBullets = [] ∧
    (processBullet true scenarioStage1Init scenarioBullet).score =
      scenarioStage1Init.score + ENEMY_SCORE *
        (scenarioStage1Init.enemies.filter
          (fun e => scenarioBullet.rect.colliderect e.rect)).length := by
  have h := player_bullet_enemy_resolution.1 true scenarioStage1Init scenarioBullet
    (by decide)
  exact ⟨h.2.1, h.2.2.1⟩

/-! ## Claim C8: cached shooter selection vs naive recomputation -/

/-- C8 (refuted): the shooter cache of get_bottom_enemies is not
equivalent to the naive per-tick recomputation.  Starting from the
three-enemy remnant, a recompute fills the cache with the two column
bottoms (ids 1 and 2); killing the id-1 enemy leaves two live enemies,
so the next tick's length heuristic keeps the cache clean, and
get_bottom_enemies then returns only the id-2 enemy, omitting the id-0
enemy that is now the lowest live member of its column, while the
spec-side recomputation returns both column bottoms. -/
theorem shooter_cache_divergence :
    (remnantGroup.getBottomEnemies.2.bottomCache = [1, 2] ∧
     remnantGroup.getBottomEnemies.2.cacheDirty = false) ∧
    (({ remnantGroup.getBottomEnemies.2 with
        enemies := remnantGroup.getBottomEnemies.2.enemies.filter
          (fun e => e.id ≠ 1) }.update 0).cacheDirty = false) ∧
    (({ remnantGroup.getBottomEnemies.2 with
        enemies := remnantGroup.getBottomEnemies.2.enemies.filter
          (fun e => e.id ≠ 1) }.update 0).getBottomEnemies.1.length = 1) ∧
    (specShooters ({ remnantGroup.getBottomEnemies.2 with
        enemies := remnantGroup.getBottomEnemies.2.enemies.filter
          (fun e => e.id ≠ 1) }.update 0).enemies).length = 2 ∧
    (({ remnantGroup.getBottomEnemies.2 with
        enemies := remnantGroup.getBottomEnemies.2.enemies.filter
          (fun e => e.id ≠ 1) }.update 0).getBottomEnemies.1 ≠
      specShooters ({ remnantGroup.getBottomEnemies.2 with
        enemies := remnantGroup.getBottomEnemies.2.enemies.filter
          (fun e => e.id ≠ 1) }.update 0).enemies) ∧
    (({ remnantGroup.getBottomEnemies.2 with
        enemies := remnantGroup.getBottomEnemies.2.enemies.filter
          (fun e => e.id ≠ 1) }.update 0).getBottomEnemies.1.all
        (fun e => e.id ≠ 0) = true) ∧
    ((specShooters ({ remnantGroup.getBottomEnemies.2 with
        enemies := remnantGroup.getBottomEnemies.2.enemies.filter
          (fun e => e.id ≠ 1) }.update 0).enemies).any
        (fun e => e.id = 0) = true) := by
  decide

/-! ## Claim C7: elite density.  Helper lemmas about the binary64 model. -/

lemma rne_ge (p s : Nat) : p / 2 ^ s ≤ rne p s := by
  unfold rne
  by_cases hs : s = 0
  · simp [hs]
  · simp only [hs, if_false]
    by_cases h1 : p % 2 ^ s < 2 ^ (s - 1)
    · simp [h1]
    · by_cases h2 : 2 ^ (s - 1) < p % 2 ^ s
      · simp [h1, h2]
      · by_cases h3 : p / 2 ^ s % 2 = 0 <;> simp [h1, h2, h3]

lemma rne_le (p s : Nat) : rne p s ≤ p / 2 ^ s + 1 := by
  unfold rne
  by_cases hs : s = 0
  · simp [hs]
  · simp only [hs, if_false]
    by_cases h1 : p % 2 ^ s < 2 ^ (s - 1)
    · simp [h1]
    · by_cases h2 : 2 ^ (s - 1) < p % 2 ^ s
      · simp [h1, h2]
      · by_cases h3 : p / 2 ^ s % 2 = 0 <;> simp [h1, h2, h3]

/-- Rounding down by at most one grid unit. -/
lemma rne_lb (p s : Nat) : p ≤ rne p s * 2 ^ s + 2 ^ s := by
  have h3 : p % 2 ^ s < 2 ^ s := Nat.mod_lt _ (Nat.pos_pow_of_pos s (by norm_num))
  have h4 : p / 2 ^ s * 2 ^ s ≤ rne p s * 2 ^ s :=
    Nat.mul_le_mul_right _ (rne_ge p s)
  calc p = 2 ^ s * (p / 2 ^ s) + p % 2 ^ s := (Nat.div_add_mod p (2 ^ s)).symm
    _ = p / 2 ^ s * 2 ^ s + p % 2 ^ s := by ring
    _ ≤ p / 2 ^ s * 2 ^ s + 2 ^ s := Nat.add_le_add_left (Nat.le_of_lt h3) _
    _ ≤ rne p s * 2 ^ s + 2 ^ s := Nat.add_le_add_right h4 _

/-- Rounding up by at most one grid unit. -/
lemma rne_ub (p s : Nat) : rne p s * 2 ^ s ≤ p + 2 ^ s := by
  calc rne p s * 2 ^ s ≤ (p / 2 ^ s + 1) * 2 ^ s :=
        Nat.mul_le_mul_right _ (rne_le p s)
    _ = p / 2 ^ s * 2 ^ s + 2 ^ s := by ring
    _ ≤ p + 2 ^ s := Nat.add_le_add_right (Nat.div_mul_le_self p _) _

lemma bitLenAux_spec :
    ∀ f n, n ≤ f → 1 ≤ n →
      2 ^ (bitLenAux f n - 1) ≤ n ∧ n < 2 ^ bitLenAux f n := by
  intro f
  induction f with
  | zero => intro n h1 h2; omega
  | succ f ih =>
      intro n hn h1
      unfold bitLenAux
      have hne : ¬ (n = 0) := by omega
      simp only [hne, if_false]
      by_cases h2 : n = 1
      · subst h2
        have hz : bitLenAux f (1 / 2) = 0 := by
          cases f <;> rfl
        rw [hz]
        norm_num
      · have hge2 : 2 ≤ n := by omega
        have hdiv : 1 ≤ n / 2 := by omega
        have hle : n / 2 ≤ f := by omega
        obtain ⟨ha, hb⟩ := ih (n / 2) hle hdiv
        have hL1 : 1 ≤ bitLenAux f (n / 2) := by
          by_contra hc
          have : bitLenAux f (n / 2) = 0 := by omega
          rw [this] at hb
          omega
        set L := bitLenAux f (n / 2) with hLdef
        have hpow : 2 ^ L = 2 * 2 ^ (L - 1) := by
          have hL : L = (L - 1) + 1 := by omega
          conv_lhs => rw [hL]
          rw [pow_succ]
          ring
        constructor
        · have hsimp : L + 1 - 1 = L := by omega
          rw [hsimp, hpow]
          omega
        · have hpow2 : 2 ^ (L + 1) = 2 * 2 ^ L := by
            rw [pow_succ]; ring
          omega

lemma bitLen_spec (n : Nat) (h : 1 ≤ n) :
    2 ^ (bitLen n - 1) ≤ n ∧ n < 2 ^ bitLen n :=
  bitLenAux_spec n n le_rfl h

/-- Cast of a Nat power of two into the rationals as a zpow. -/
lemma q_pow_cast (k : Nat) : ((2 ^ k : ℕ) : ℚ) = (2 : ℚ) ^ (k : ℤ) := by
  push_cast
  exact (zpow_natCast 2 k).symm

lemma q_two_zpow_pos (z : ℤ) : (0 : ℚ) < (2 : ℚ) ^ z :=
  zpow_pos (by norm_num) z

lemma q_two_zpow_add (y z : ℤ) :
    (2 : ℚ) ^ (y + z) = (2 : ℚ) ^ y * (2 : ℚ) ^ z :=
  zpow_add₀ (by norm_num) y z

/-- The shared carry normalization of the rounding steps leaves the
denoted value unchanged. -/
lemma val_carry (m : Nat) (e : Int) :
    (if m = 2 ^ 53 then (⟨2 ^ 52, e + 1⟩ : Dbl) else ⟨m, e⟩).val =
      (m : ℚ) * (2 : ℚ) ^ (e - 52) := by
  by_cases h : m = 2 ^ 53
  · rw [if_pos h, h]
    unfold Dbl.val
    have h1 : e + 1 - 52 = (e - 52) + 1 := by ring
    rw [h1, q_two_zpow_add]
    push_cast
    ring
  · rw [if_neg h]
    rfl

lemma bitLen_pos (n : Nat) (h : 1 ≤ n) : 1 ≤ bitLen n := by
  obtain ⟨_, hhi⟩ := bitLen_spec n h
  by_contra hc
  have h0 : bitLen n = 0 := by omega
  rw [h0] at hhi
  omega

lemma ofNat_norm (n : Nat) (h : 1 ≤ n) : (Dbl.ofNat n).norm := by
  unfold Dbl.ofNat
  have hne : ¬ (n = 0) := by omega
  simp only [hne, if_false]
  obtain ⟨hlo, hhi⟩ := bitLen_spec n h
  have hL1 : 1 ≤ bitLen n := bitLen_pos n h
  by_cases hle : bitLen n ≤ 53
  · rw [if_pos hle]
    constructor
    · have he : (bitLen n - 1) + (53 - bitLen n) = 52 := by omega
      calc 2 ^ 52 = 2 ^ (bitLen n - 1) * 2 ^ (53 - bitLen n) := by
            rw [← pow_add, he]
        _ ≤ n * 2 ^ (53 - bitLen n) := Nat.mul_le_mul_right _ hlo
    · have he : bitLen n + (53 - bitLen n) = 53 := by omega
      calc n * 2 ^ (53 - bitLen n) < 2 ^ bitLen n * 2 ^ (53 - bitLen n) :=
            (Nat.mul_lt_mul_right (Nat.pos_pow_of_pos _ (by norm_num))).mpr hhi
        _ = 2 ^ 53 := by rw [← pow_add, he]
  · rw [if_neg hle]
    have hL53 : 53 < bitLen n := by omega
    have hpos : 0 < 2 ^ (bitLen n - 53) := Nat.pos_pow_of_pos _ (by norm_num)
    have hm_lo : 2 ^ 52 ≤ rne n (bitLen n - 53) := by
      have h1 : 2 ^ 52 ≤ n / 2 ^ (bitLen n - 53) := by
        rw [Nat.le_div_iff_mul_le hpos]
        calc 2 ^ 52 * 2 ^ (bitLen n - 53) = 2 ^ (bitLen n - 1) := by
              rw [← pow_add]; congr 1; omega
          _ ≤ n := hlo
      exact le_trans h1 (rne_ge n (bitLen n - 53))
    have hm_hi : rne n (bitLen n - 53) ≤ 2 ^ 53 := by
      have hsplit : 2 ^ bitLen n = 2 ^ 53 * 2 ^ (bitLen n - 53) := by
        rw [← pow_add]; congr 1; omega
      have h2 : n / 2 ^ (bitLen n - 53) ≤ (2 ^ bitLen n - 1) / 2 ^ (bitLen n - 53) :=
        Nat.div_le_div_right (by omega)
      have h3 : (2 ^ bitLen n - 1) / 2 ^ (bitLen n - 53) = 2 ^ 53 - 1 := by
        have heq : 2 ^ bitLen n - 1 =
            2 ^ (bitLen n - 53) - 1 + 2 ^ (bitLen n - 53) * (2 ^ 53 - 1) := by
          have hd : 2 ^ (bitLen n - 53) * (2 ^ 53 - 1) =
              2 ^ (bitLen n - 53) * 2 ^ 53 - 2 ^ (bitLen n - 53) := by
            rw [Nat.mul_sub]
            ring_nf
          rw [hd]
          have hc : 2 ^ (bitLen n - 53) * 2 ^ 53 = 2 ^ bitLen n := by
            rw [← pow_add]; congr 1; omega
          omega
        rw [heq, Nat.add_mul_div_left _ _ hpos,
            Nat.div_eq_of_lt (by omega), Nat.zero_add]
      have h4 := rne_le n (bitLen n - 53)
      omega
    by_cases hc : rne n (bitLen n - 53) = 2 ^ 53
    · rw [if_pos hc]
      exact ⟨le_rfl, by norm_num⟩
    · rw [if_neg hc]
      exact ⟨hm_lo, lt_of_le_of_ne hm_hi hc⟩

lemma ofNat_val_ge (n : Nat) (h : 1 ≤ n) :
    (n : ℚ) * (1 - (1 : ℚ) / 2 ^ 52) ≤ (Dbl.ofNat n).val := by
  unfold Dbl.ofNat
  have hne : ¬ (n = 0) := by omega
  simp only [hne, if_false]
  obtain ⟨hlo, hhi⟩ := bitLen_spec n h
  have hL1 : 1 ≤ bitLen n := bitLen_pos n h
  by_cases hle : bitLen n ≤ 53
  · rw [if_pos hle]
    have hval : (Dbl.val ⟨n * 2 ^ (53 - bitLen n), (bitLen n : Int) - 1⟩) = (n : ℚ) := by
      unfold Dbl.val
      rw [Nat.cast_mul, q_pow_cast, mul_assoc, ← q_two_zpow_add]
      have hE : ((53 - bitLen n : ℕ) : ℤ) + ((bitLen n : ℤ) - 1 - 52) = 0 := by omega
      rw [hE]
      simp
    rw [hval]
    have hn0 : (0 : ℚ) ≤ (n : ℚ) := by positivity
    nlinarith
  · rw [if_neg hle]
    have hL53 : 53 < bitLen n := by omega
    -- the rounded value as a rational
    have hBval : ((2 ^ (bitLen n - 53) : ℕ) : ℚ) = (2 : ℚ) ^ ((bitLen n : ℤ) - 53) := by
      rw [q_pow_cast]
      congr 1
      omega
    have hlb : (n : ℚ) ≤ (rne n (bitLen n - 53) : ℚ) * 2 ^ (bitLen n - 53) +
        2 ^ (bitLen n - 53) := by
      have := rne_lb n (bitLen n - 53)
      exact_mod_cast this
    have hBsmall : ((2 ^ (bitLen n - 53) : ℕ) : ℚ) * 2 ^ 52 ≤ (n : ℚ) := by
      have hN : 2 ^ (bitLen n - 53) * 2 ^ 52 ≤ n := by
        calc 2 ^ (bitLen n - 53) * 2 ^ 52 = 2 ^ (bitLen n - 1) := by
              rw [← pow_add]; congr 1; omega
          _ ≤ n := hlo
      exact_mod_cast hN
    have hmain : (n : ℚ) * (1 - (1 : ℚ) / 2 ^ 52) ≤
        (rne n (bitLen n - 53) : ℚ) * (2 : ℚ) ^ ((bitLen n : ℤ) - 53) := by
      rw [← hBval]
      push_cast at hlb hBsmall ⊢
      nlinarith
    by_cases hc : rne n (bitLen n - 53) = 2 ^ 53
    · rw [if_pos hc]
      unfold Dbl.val
      have hv : ((2 ^ 52 : ℕ) : ℚ) * (2 : ℚ) ^ ((bitLen n : ℤ) - 52) =
          (rne n (bitLen n - 53) : ℚ) * (2 : ℚ) ^ ((bitLen n : ℤ) - 53) := by
        rw [hc]
        push_cast
        rw [show (bitLen n : ℤ) - 52 = 1 + ((bitLen n : ℤ) - 53) by ring,
            q_two_zpow_add]
        ring
      rw [hv]
      exact hmain
    · rw [if_neg hc]
      unfold Dbl.val
      have hv : ((bitLen n : ℤ) - 1 - 52) = (bitLen n : ℤ) - 53 := by ring
      rw [hv]
      exact hmain


lemma val_mul_vals (a b : Dbl) :
    a.val * b.val = ((a.m * b.m : ℕ) : ℚ) * (2 : ℚ) ^ (a.e + b.e - 104) := by
  unfold Dbl.val
  push_cast
  rw [show a.e + b.e - 104 = (a.e - 52) + (b.e - 52) by ring, q_two_zpow_add]
  ring

lemma mul_val_ge (a b : Dbl) (ha : a.norm) (hb : b.norm) :
    a.val * b.val * (1 - (1 : ℚ) / 2 ^ 52) ≤ (a.mul b).val := by
  obtain ⟨ha1, ha2⟩ := ha
  obtain ⟨hb1, hb2⟩ := hb
  have hp52 : (0 : ℕ) < 2 ^ 52 := by positivity
  have hA : ¬ (a.m = 0) := by omega
  have hB : ¬ (b.m = 0) := by omega
  have hz : (0 : ℚ) ≤ (2 : ℚ) ^ (a.e + b.e - 104) := le_of_lt (q_two_zpow_pos _)
  unfold Dbl.mul
  by_cases hP : a.m * b.m ≥ 2 ^ 105
  · simp only [hA, hB, hP, decide_False, Bool.or_self, Bool.false_eq_true, if_false,
      if_true, if_pos]
    rw [val_carry, val_mul_vals]
    have hlbq : ((a.m * b.m : ℕ) : ℚ) ≤ (rne (a.m * b.m) 53 : ℚ) * 2 ^ 53 + 2 ^ 53 := by
      exact_mod_cast rne_lb (a.m * b.m) 53
    have hPq : ((2 : ℚ) ^ 105) ≤ ((a.m * b.m : ℕ) : ℚ) := by exact_mod_cast hP
    have hkey : ((a.m * b.m : ℕ) : ℚ) * (1 - 1 / 2 ^ 52) ≤
        (rne (a.m * b.m) 53 : ℚ) * 2 ^ 53 := by linarith
    calc ((a.m * b.m : ℕ) : ℚ) * (2 : ℚ) ^ (a.e + b.e - 104) * (1 - 1 / 2 ^ 52)
        = (((a.m * b.m : ℕ) : ℚ) * (1 - 1 / 2 ^ 52)) * (2 : ℚ) ^ (a.e + b.e - 104) := by
          ring
      _ ≤ ((rne (a.m * b.m) 53 : ℚ) * 2 ^ 53) * (2 : ℚ) ^ (a.e + b.e - 104) :=
          mul_le_mul_of_nonneg_right hkey hz
      _ = (rne (a.m * b.m) 53 : ℚ) * (2 : ℚ) ^ (a.e + b.e + 1 - 52) := by
          rw [mul_assoc]
          congr 1
          rw [show ((2 : ℚ) ^ (53 : ℕ)) = (2 : ℚ) ^ ((53 : ℕ) : ℤ) from
            (zpow_natCast 2 53).symm, ← q_two_zpow_add]
          congr 1
          ring
  · simp only [hA, hB, hP, decide_False, Bool.or_self, Bool.false_eq_true, if_false,
      if_true, if_neg]
    rw [val_carry, val_mul_vals]
    have hlbq : ((a.m * b.m : ℕ) : ℚ) ≤ (rne (a.m * b.m) 52 : ℚ) * 2 ^ 52 + 2 ^ 52 := by
      exact_mod_cast rne_lb (a.m * b.m) 52
    have hPn : 2 ^ 104 ≤ a.m * b.m := by
      calc (2 : ℕ) ^ 104 = 2 ^ 52 * 2 ^ 52 := by norm_num
        _ ≤ a.m * b.m := Nat.mul_le_mul ha1 hb1
    have hPq : ((2 : ℚ) ^ 104) ≤ ((a.m * b.m : ℕ) : ℚ) := by exact_mod_cast hPn
    have hkey : ((a.m * b.m : ℕ) : ℚ) * (1 - 1 / 2 ^ 52) ≤
        (rne (a.m * b.m) 52 : ℚ) * 2 ^ 52 := by linarith
    calc ((a.m * b.m : ℕ) : ℚ) * (2 : ℚ) ^ (a.e + b.e - 104) * (1 - 1 / 2 ^ 52)
        = (((a.m * b.m : ℕ) : ℚ) * (1 - 1 / 2 ^ 52)) * (2 : ℚ) ^ (a.e + b.e - 104) := by
          ring
      _ ≤ ((rne (a.m * b.m) 52 : ℚ) * 2 ^ 52) * (2 : ℚ) ^ (a.e + b.e - 104) :=
          mul_le_mul_of_nonneg_right hkey hz
      _ = (rne (a.m * b.m) 52 : ℚ) * (2 : ℚ) ^ (a.e + b.e - 52) := by
          rw [mul_assoc]
          congr 1
          rw [show ((2 : ℚ) ^ (52 : ℕ)) = (2 : ℚ) ^ ((52 : ℕ) : ℤ) from
            (zpow_natCast 2 52).symm, ← q_two_zpow_add]
          congr 1
          ring


lemma div_mul_pred (A B : Nat) (hB : 0 < B) : (B * A - 1) / B = A - 1 := by
  cases A with
  | zero => simp
  | succ k =>
      have h1 : B * (k + 1) - 1 = (B - 1) + B * k := by
        have h2 : B * (k + 1) = B * k + B := by ring
        omega
      rw [h1, Nat.add_mul_div_left _ _ hB, Nat.div_eq_of_lt (by omega)]
      omega

lemma mul_norm (a b : Dbl) (ha : a.norm) (hb : b.norm) : (a.mul b).norm := by
  obtain ⟨ha1, ha2⟩ := ha
  obtain ⟨hb1, hb2⟩ := hb
  have hp52 : (0 : ℕ) < 2 ^ 52 := by positivity
  have hA : ¬ (a.m = 0) := by omega
  have hB : ¬ (b.m = 0) := by omega
  have hPn : 2 ^ 104 ≤ a.m * b.m := by
    calc (2 : ℕ) ^ 104 = 2 ^ 52 * 2 ^ 52 := by norm_num
      _ ≤ a.m * b.m := Nat.mul_le_mul ha1 hb1
  have hPu : a.m * b.m < 2 ^ 106 := by
    calc a.m * b.m < 2 ^ 53 * 2 ^ 53 := Nat.mul_lt_mul_of_lt_of_lt ha2 hb2
      _ = 2 ^ 106 := by norm_num
  unfold Dbl.mul
  by_cases hP : a.m * b.m ≥ 2 ^ 105
  · simp only [hA, hB, hP, decide_False, Bool.or_self, Bool.false_eq_true, if_false,
      if_true, if_pos]
    have hlo : 2 ^ 52 ≤ rne (a.m * b.m) 53 := by
      have h1 : 2 ^ 52 ≤ a.m * b.m / 2 ^ 53 := by
        rw [Nat.le_div_iff_mul_le (by positivity)]
        calc 2 ^ 52 * 2 ^ 53 = 2 ^ 105 := by norm_num
          _ ≤ a.m * b.m := hP
      exact le_trans h1 (rne_ge _ _)
    have hhi : rne (a.m * b.m) 53 ≤ 2 ^ 53 := by
      have h1 : a.m * b.m / 2 ^ 53 ≤ 2 ^ 53 - 1 := by
        have h2 : a.m * b.m ≤ 2 ^ 53 * 2 ^ 53 - 1 := by
          have : (2 : ℕ) ^ 53 * 2 ^ 53 = 2 ^ 106 := by norm_num
          omega
        have h3 := Nat.div_le_div_right (c := 2 ^ 53) h2
        rwa [div_mul_pred _ _ (by positivity)] at h3
      have h4 := rne_le (a.m * b.m) 53
      omega
    by_cases hc : rne (a.m * b.m) 53 = 2 ^ 53
    · rw [if_pos hc]
      exact ⟨le_rfl, by norm_num⟩
    · rw [if_neg hc]
      exact ⟨hlo, lt_of_le_of_ne hhi hc⟩
  · simp only [hA, hB, hP, decide_False, Bool.or_self, Bool.false_eq_true, if_false,
      if_true, if_neg]
    have hlo : 2 ^ 52 ≤ rne (a.m * b.m) 52 := by
      have h1 : 2 ^ 52 ≤ a.m * b.m / 2 ^ 52 := by
        rw [Nat.le_div_iff_mul_le (by positivity)]
        calc 2 ^ 52 * 2 ^ 52 = 2 ^ 104 := by norm_num
          _ ≤ a.m * b.m := hPn
      exact le_trans h1 (rne_ge _ _)
    have hhi : rne (a.m * b.m) 52 ≤ 2 ^ 53 := by
      have h1 : a.m * b.m / 2 ^ 52 ≤ 2 ^ 53 - 1 := by
        have h2 : a.m * b.m ≤ 2 ^ 52 * 2 ^ 53 - 1 := by
          have : (2 : ℕ) ^ 52 * 2 ^ 53 = 2 ^ 105 := by norm_num
          omega
        have h3 := Nat.div_le_div_right (c := 2 ^ 52) h2
        rwa [div_mul_pred _ _ (by positivity)] at h3
      have h4 := rne_le (a.m * b.m) 52
      omega
    by_cases hc : rne (a.m * b.m) 52 = 2 ^ 53
    · rw [if_pos hc]
      exact ⟨le_rfl, by norm_num⟩
    · rw [if_neg hc]
      exact ⟨hlo, lt_of_le_of_ne hhi hc⟩


lemma addAligned_val_ge (hi lo : Dbl) (hhi : hi.norm) (hle : lo.e ≤ hi.e) :
    (hi.val + lo.val) * (1 - (1 : ℚ) / 2 ^ 52) ≤ (addAligned hi lo).val := by
  obtain ⟨h1, h2⟩ := hhi
  have hsum : hi.val + lo.val =
      ((hi.m * 2 ^ (hi.e - lo.e).toNat + lo.m : ℕ) : ℚ) * (2 : ℚ) ^ (lo.e - 52) := by
    unfold Dbl.val
    push_cast
    rw [show hi.e - 52 = (((hi.e - lo.e).toNat : ℤ)) + (lo.e - 52) by omega,
        q_two_zpow_add, ← zpow_natCast (2 : ℚ) (hi.e - lo.e).toNat]
    ring
  have hz : (0 : ℚ) ≤ (2 : ℚ) ^ (lo.e - 52) := le_of_lt (q_two_zpow_pos _)
  unfold addAligned
  by_cases hS : hi.m * 2 ^ (hi.e - lo.e).toNat + lo.m ≥ 2 ^ (53 + (hi.e - lo.e).toNat)
  · simp only [hS, if_pos, if_true]
    rw [val_carry, hsum]
    have hlbq : ((hi.m * 2 ^ (hi.e - lo.e).toNat + lo.m : ℕ) : ℚ) ≤
        (rne (hi.m * 2 ^ (hi.e - lo.e).toNat + lo.m) ((hi.e - lo.e).toNat + 1) : ℚ) *
          2 ^ ((hi.e - lo.e).toNat + 1) + 2 ^ ((hi.e - lo.e).toNat + 1) := by
      exact_mod_cast rne_lb (hi.m * 2 ^ (hi.e - lo.e).toNat + lo.m)
        ((hi.e - lo.e).toNat + 1)
    have hSb : (2 : ℕ) ^ 52 * 2 ^ ((hi.e - lo.e).toNat + 1) ≤
        hi.m * 2 ^ (hi.e - lo.e).toNat + lo.m := by
      calc (2 : ℕ) ^ 52 * 2 ^ ((hi.e - lo.e).toNat + 1) =
            2 ^ (53 + (hi.e - lo.e).toNat) := by rw [← pow_add]; congr 1; omega
        _ ≤ hi.m * 2 ^ (hi.e - lo.e).toNat + lo.m := hS
    have hSbq : (2 : ℚ) ^ 52 * 2 ^ ((hi.e - lo.e).toNat + 1) ≤
        ((hi.m * 2 ^ (hi.e - lo.e).toNat + lo.m : ℕ) : ℚ) := by exact_mod_cast hSb
    have hkey : ((hi.m * 2 ^ (hi.e - lo.e).toNat + lo.m : ℕ) : ℚ) * (1 - 1 / 2 ^ 52) ≤
        (rne (hi.m * 2 ^ (hi.e - lo.e).toNat + lo.m) ((hi.e - lo.e).toNat + 1) : ℚ) *
          2 ^ ((hi.e - lo.e).toNat + 1) := by
      nlinarith
    calc ((hi.m * 2 ^ (hi.e - lo.e).toNat + lo.m : ℕ) : ℚ) * (2 : ℚ) ^ (lo.e - 52) *
          (1 - 1 / 2 ^ 52)
        = (((hi.m * 2 ^ (hi.e - lo.e).toNat + lo.m : ℕ) : ℚ) * (1 - 1 / 2 ^ 52)) *
            (2 : ℚ) ^ (lo.e - 52) := by ring
      _ ≤ ((rne (hi.m * 2 ^ (hi.e - lo.e).toNat + lo.m) ((hi.e - lo.e).toNat + 1) : ℚ) *
            2 ^ ((hi.e - lo.e).toNat + 1)) * (2 : ℚ) ^ (lo.e - 52) :=
          mul_le_mul_of_nonneg_right hkey hz
      _ = (rne (hi.m * 2 ^ (hi.e - lo.e).toNat + lo.m) ((hi.e - lo.e).toNat + 1) : ℚ) *
            (2 : ℚ) ^ (hi.e + 1 - 52) := by
          rw [mul_assoc]
          congr 1
          rw [← zpow_natCast (2 : ℚ) ((hi.e - lo.e).toNat + 1), ← q_two_zpow_add]
          congr 1
          omega
  · simp only [hS, if_neg, if_false, Bool.false_eq_true]
    rw [val_carry, hsum]
    have hlbq : ((hi.m * 2 ^ (hi.e - lo.e).toNat + lo.m : ℕ) : ℚ) ≤
        (rne (hi.m * 2 ^ (hi.e - lo.e).toNat + lo.m) (hi.e - lo.e).toNat : ℚ) *
          2 ^ ((hi.e - lo.e).toNat) + 2 ^ ((hi.e - lo.e).toNat) := by
      exact_mod_cast rne_lb (hi.m * 2 ^ (hi.e - lo.e).toNat + lo.m) (hi.e - lo.e).toNat
    have hSb : (2 : ℕ) ^ 52 * 2 ^ ((hi.e - lo.e).toNat) ≤
        hi.m * 2 ^ (hi.e - lo.e).toNat + lo.m := by
      calc (2 : ℕ) ^ 52 * 2 ^ ((hi.e - lo.e).toNat) ≤
            hi.m * 2 ^ (hi.e - lo.e).toNat :=
          Nat.mul_le_mul_right _ h1
        _ ≤ hi.m * 2 ^ (hi.e - lo.e).toNat + lo.m := Nat.le_add_right _ _
    have hSbq : (2 : ℚ) ^ 52 * 2 ^ ((hi.e - lo.e).toNat) ≤
        ((hi.m * 2 ^ (hi.e - lo.e).toNat + lo.m : ℕ) : ℚ) := by exact_mod_cast hSb
    have hkey : ((hi.m * 2 ^ (hi.e - lo.e).toNat + lo.m : ℕ) : ℚ) * (1 - 1 / 2 ^ 52) ≤
        (rne (hi.m * 2 ^ (hi.e - lo.e).toNat + lo.m) (hi.e - lo.e).toNat : ℚ) *
          2 ^ ((hi.e - lo.e).toNat) := by
      nlinarith
    calc ((hi.m * 2 ^ (hi.e - lo.e).toNat + lo.m : ℕ) : ℚ) * (2 : ℚ) ^ (lo.e - 52) *
          (1 - 1 / 2 ^ 52)
        = (((hi.m * 2 ^ (hi.e - lo.e).toNat + lo.m : ℕ) : ℚ) * (1 - 1 / 2 ^ 52)) *
            (2 : ℚ) ^ (lo.e - 52) := by ring
      _ ≤ ((rne (hi.m * 2 ^ (hi.e - lo.e).toNat + lo.m) (hi.e - lo.e).toNat : ℚ) *
            2 ^ ((hi.e - lo.e).toNat)) * (2 : ℚ) ^ (lo.e - 52) :=
          mul_le_mul_of_nonneg_right hkey hz
      _ = (rne (hi.m * 2 ^ (hi.e - lo.e).toNat + lo.m) (hi.e - lo.e).toNat : ℚ) *
            (2 : ℚ) ^ (hi.e - 52) := by
          rw [mul_assoc]
          congr 1
          rw [← zpow_natCast (2 : ℚ) ((hi.e - lo.e).toNat), ← q_two_zpow_add]
          congr 1
          omega

lemma Dbl.add_val_ge (a b : Dbl) (ha : a.norm) (hb : b.norm) :
    (a.val + b.val) * (1 - (1 : ℚ) / 2 ^ 52) ≤ (a.add b).val := by
  have hp52 : (0 : ℕ) < 2 ^ 52 := by positivity
  have hA : ¬ (a.m = 0) := by have := ha.1; omega
  have hB : ¬ (b.m = 0) := by have := hb.1; omega
  unfold Dbl.add
  simp only [hA, hB, if_false]
  by_cases hba : b.e ≤ a.e
  · rw [if_pos hba]
    exact addAligned_val_ge a b ha hba
  · rw [if_neg hba]
    rw [add_comm (a.val) (b.val)]
    exact addAligned_val_ge b a hb (by omega)


lemma val_nonneg (d : Dbl) : 0 ≤ d.val := by
  unfold Dbl.val
  positivity

lemma val_le_of_le (a b : Dbl) (h : Dbl.le a b = true) : a.val ≤ b.val := by
  unfold Dbl.le at h
  unfold Dbl.val
  by_cases hab : a.e ≤ b.e
  · rw [if_pos hab, decide_eq_true_eq] at h
    have hq : (a.m : ℚ) ≤ (b.m : ℚ) * (2 : ℚ) ^ (b.e - a.e) := by
      have hc := (Nat.cast_le (α := ℚ)).mpr h
      push_cast at hc
      rw [← zpow_natCast (2 : ℚ)] at hc
      rwa [show (((b.e - a.e).toNat : ℤ)) = b.e - a.e by omega] at hc
    calc (a.m : ℚ) * 2 ^ (a.e - 52)
        ≤ ((b.m : ℚ) * 2 ^ (b.e - a.e)) * 2 ^ (a.e - 52) :=
          mul_le_mul_of_nonneg_right hq (le_of_lt (q_two_zpow_pos _))
      _ = (b.m : ℚ) * 2 ^ (b.e - 52) := by
          rw [mul_assoc, ← q_two_zpow_add]
          congr 2
          ring
  · rw [if_neg hab, decide_eq_true_eq] at h
    have hq : (a.m : ℚ) * (2 : ℚ) ^ (a.e - b.e) ≤ (b.m : ℚ) := by
      have hc := (Nat.cast_le (α := ℚ)).mpr h
      push_cast at hc
      rw [← zpow_natCast (2 : ℚ)] at hc
      rwa [show (((a.e - b.e).toNat : ℤ)) = a.e - b.e by omega] at hc
    calc (a.m : ℚ) * 2 ^ (a.e - 52)
        = ((a.m : ℚ) * 2 ^ (a.e - b.e)) * 2 ^ (b.e - 52) := by
          rw [mul_assoc, ← q_two_zpow_add]
          congr 2
          ring
      _ ≤ (b.m : ℚ) * 2 ^ (b.e - 52) :=
          mul_le_mul_of_nonneg_right hq (le_of_lt (q_two_zpow_pos _))

lemma dbl01_norm : dbl01.norm := by
  constructor <;> norm_num [dbl01]

lemma dbl002_norm : dbl002.norm := by
  constructor <;> norm_num [dbl002]

lemma dbl01_val : dbl01.val = 7205759403792794 / 2 ^ 56 := by
  unfold Dbl.val dbl01
  rw [show (-4 - 52 : ℤ) = -((56 : ℕ) : ℤ) by norm_num, zpow_neg, zpow_natCast]
  norm_num

lemma dbl002_val : dbl002.val = 5764607523034235 / 2 ^ 58 := by
  unfold Dbl.val dbl002
  rw [show (-6 - 52 : ℤ) = -((58 : ℕ) : ℤ) by norm_num, zpow_neg, zpow_natCast]
  norm_num

lemma dbl03_val : dbl03.val = 5404319552844595 / 2 ^ 54 := by
  unfold Dbl.val dbl03
  rw [show (-2 - 52 : ℤ) = -((54 : ℕ) : ℤ) by norm_num, zpow_neg, zpow_natCast]
  norm_num

/-- For any integer wave offset of at least 12, the computed elite
percentage reaches the 0.3 cap: the float comparison in min() rejects
the percentage. -/
lemma pct_le_dbl03_false (n : Nat) (hn : 12 ≤ n) :
    Dbl.le (Dbl.add dbl01 (Dbl.mul (Dbl.ofNat n) dbl002)) dbl03 = false := by
  cases hcase : Dbl.le (Dbl.add dbl01 (Dbl.mul (Dbl.ofNat n) dbl002)) dbl03 with
  | false => rfl
  | true =>
      exfalso
      have hval := val_le_of_le _ _ hcase
      have hn1 : 1 ≤ n := by omega
      have hofn := ofNat_norm n hn1
      have hxn := mul_norm (Dbl.ofNat n) dbl002 hofn dbl002_norm
      have h1 := ofNat_val_ge n hn1
      have h2 := mul_val_ge (Dbl.ofNat n) dbl002 hofn dbl002_norm
      have h3 := Dbl.add_val_ge dbl01 (Dbl.mul (Dbl.ofNat n) dbl002) dbl01_norm hxn
      have h1me : (999 : ℚ) / 1000 ≤ 1 - 1 / 2 ^ 52 := by norm_num
      have h002v : (199 : ℚ) / 10000 ≤ dbl002.val := by rw [dbl002_val]; norm_num
      have h01v : (999 : ℚ) / 10000 ≤ dbl01.val := by rw [dbl01_val]; norm_num
      have h03v : dbl03.val < (3 : ℚ) / 10 := by rw [dbl03_val]; norm_num
      have hcast : (12 : ℚ) ≤ (n : ℚ) := by exact_mod_cast hn
      have hofval : (119 : ℚ) / 10 ≤ (Dbl.ofNat n).val := by
        have hm := mul_le_mul hcast h1me (by norm_num) (by positivity)
        linarith
      have hprod : (119 : ℚ) / 10 * (199 / 10000) ≤ (Dbl.ofNat n).val * dbl002.val :=
        mul_le_mul hofval h002v (by norm_num) (le_trans (by norm_num) hofval)
      have hprodval : (23681 : ℚ) / 100000 ≤ (Dbl.ofNat n).val * dbl002.val := by
        calc (23681 : ℚ) / 100000 = 119 / 10 * (199 / 10000) := by norm_num
          _ ≤ _ := hprod
      have hx : (23 : ℚ) / 100 ≤ (Dbl.mul (Dbl.ofNat n) dbl002).val := by
        have hm : (23681 : ℚ) / 100000 * (999 / 1000) ≤
            ((Dbl.ofNat n).val * dbl002.val) * (1 - 1 / 2 ^ 52) :=
          mul_le_mul hprodval h1me (by norm_num) (le_trans (by norm_num) hprodval)
        linarith
      have hsum : (3299 : ℚ) / 10000 ≤ dbl01.val + (Dbl.mul (Dbl.ofNat n) dbl002).val := by
        linarith
      have hm2 : (3299 : ℚ) / 10000 * (999 / 1000) ≤
          (dbl01.val + (Dbl.mul (Dbl.ofNat n) dbl002).val) * (1 - 1 / 2 ^ 52) :=
        mul_le_mul hsum h1me (by norm_num) (le_trans (by norm_num) hsum)
      linarith

/-- From wave 14 on, the cap makes create_formation mark 15 elites. -/
lemma eliteCount_cap (w : Nat) (hw : 14 ≤ w) : eliteCount w = 15 := by
  unfold eliteCount
  rw [if_pos (by omega : 2 ≤ w)]
  have hfalse := pct_le_dbl03_false (w - 2) (by omega)
  simp only [Dbl.pymin, hfalse, Bool.false_eq_true, if_false]
  decide

/-- Closed form of the elite count of create_formation. -/
lemma eliteCount_closed (w : Nat) (hw : 2 ≤ w) :
    eliteCount w = min (5 + (w - 2)) 15 := by
  obtain ⟨k, rfl⟩ : ∃ k, w = k + 2 := ⟨w - 2, by omega⟩
  by_cases hk : k ≤ 11
  · interval_cases k <;> decide
  · rw [eliteCount_cap _ (by omega)]
    omega


lemma mkFormation_filter_length (sample : List (Int × Int × Nat)) :
    ∀ (l : List (Int × Int × Nat)) (k : Nat),
      ((mkFormationEnemies sample l k).filter (fun e => e.isElite)).length =
        (l.filter (fun p => decide (p ∈ sample))).length := by
  intro l
  induction l with
  | nil => intro k; rfl
  | cons p rest ih =>
      intro k
      unfold mkFormationEnemies
      by_cases hp : p ∈ sample
      · simp [List.filter_cons, hp, Enemy.mk0, ih]
      · simp [List.filter_cons, hp, Enemy.mk0, ih]

lemma mkFormation_elite_mem (sample : List (Int × Int × Nat)) :
    ∀ (l : List (Int × Int × Nat)) (k : Nat),
      ∀ e ∈ mkFormationEnemies sample l k,
        e.isElite = true → (e.rect.x, e.rect.y, e.row) ∈ sample := by
  intro l
  induction l with
  | nil =>
      intro k e he
      simp [mkFormationEnemies] at he
  | cons p rest ih =>
      intro k e he hel
      unfold mkFormationEnemies at he
      rcases List.mem_cons.mp he with h | h
      · subst h
        simp [Enemy.mk0] at hel ⊢
        exact hel
      · exact ih (k + 1) e h hel

lemma filter_mem_length (l sample : List (Int × Int × Nat)) (hnd : l.Nodup)
    (hs : sample.Nodup) (hsub : sample ⊆ l) :
    (l.filter (fun p => decide (p ∈ sample))).length = sample.length := by
  have hperm : List.Perm (l.filter (fun p => decide (p ∈ sample))) sample := by
    rw [List.perm_ext_iff_of_nodup (hnd.filter _) hs]
    intro a
    simp only [List.mem_filter, decide_eq_true_eq]
    constructor
    · rintro ⟨_, h2⟩
      exact h2
    · intro h
      exact ⟨hsub h, h⟩
  exact hperm.length_eq

lemma formationPositions_nodup : formationPositions.Nodup := by decide

/-- C7: a freshly built formation marks exactly
floor(R * C * min(0.30, 0.10 + 0.02 * (wave - 2))) cells as elite (the
elite positions being the sampled-without-replacement oracle, no cell
twice), every elite cell comes from the sample and all other cells are
regular, and at wave 1 no cell is elite. -/
theorem elite_density (wave : Nat) (g : EnemyGroup) (sample : List (Int × Int × Nat))
    (hlen : sample.length = eliteCount wave)
    (hsub : sample ⊆ formationPositions) (hnd : sample.Nodup) :
    ((g.createFormation sample).enemies.filter (fun e => e.isElite)).length =
      eliteCount wave ∧
    (2 ≤ wave → (eliteCount wave : ℤ) =
      ⌊((ENEMY_ROWS * ENEMY_COLS : ℕ) : ℚ) *
        min ((30 : ℚ) / 100) ((10 : ℚ) / 100 + (2 : ℚ) / 100 * ((wave : ℚ) - 2))⌋) ∧
    (∀ e ∈ (g.createFormation sample).enemies,
      e.isElite = true → (e.rect.x, e.rect.y, e.row) ∈ sample) ∧
    (wave = 1 → (g.createFormation sample).enemies.filter (fun e => e.isElite) = []) := by
  have hcount :
      ((g.createFormation sample).enemies.filter (fun e => e.isElite)).length =
        sample.length := by
    show ((mkFormationEnemies sample formationPositions 0).filter
      (fun e => e.isElite)).length = _
    rw [mkFormation_filter_length]
    exact filter_mem_length _ _ formationPositions_nodup hnd hsub
  refine ⟨by rw [hcount, hlen], ?_, ?_, ?_⟩
  · intro hw
    rw [eliteCount_closed wave hw]
    obtain ⟨k, rfl⟩ : ∃ k, wave = k + 2 := ⟨wave - 2, by omega⟩
    have hRC : ((ENEMY_ROWS * ENEMY_COLS : ℕ) : ℚ) = 50 := by
      norm_num [ENEMY_ROWS, ENEMY_COLS]
    have hwk : ((k + 2 : ℕ) : ℚ) - 2 = (k : ℚ) := by push_cast; ring
    rw [hRC, hwk]
    by_cases hk : k ≤ 10
    · have hmin : min ((30 : ℚ) / 100) ((10 : ℚ) / 100 + 2 / 100 * (k : ℚ)) =
          (10 : ℚ) / 100 + 2 / 100 * (k : ℚ) := by
        apply min_eq_right
        have hkq : (k : ℚ) ≤ 10 := by exact_mod_cast hk
        linarith
      rw [hmin]
      have hval : (50 : ℚ) * ((10 : ℚ) / 100 + 2 / 100 * (k : ℚ)) = ((5 + k : ℕ) : ℚ) := by
        push_cast
        ring
      rw [hval, Int.floor_natCast]
      have hmn : min (5 + (k + 2 - 2)) 15 = 5 + k := by omega
      rw [hmn]
    · have hmin : min ((30 : ℚ) / 100) ((10 : ℚ) / 100 + 2 / 100 * (k : ℚ)) =
          (30 : ℚ) / 100 := by
        apply min_eq_left
        have hkq : (11 : ℚ) ≤ (k : ℚ) := by exact_mod_cast (by omega : 11 ≤ k)
        linarith
      rw [hmin]
      have hval : (50 : ℚ) * ((30 : ℚ) / 100) = ((15 : ℕ) : ℚ) := by norm_num
      rw [hval, Int.floor_natCast]
      have hmn : min (5 + (k + 2 - 2)) 15 = 15 := by omega
      rw [hmn]
  · exact fun e he => mkFormation_elite_mem sample formationPositions 0 e he
  · intro h1
    subst h1
    have h0 : eliteCount 1 = 0 := by decide
    apply List.length_eq_zero.mp
    rw [hcount, hlen, h0]

/-- Witness for C7: a concrete wave-2 formation with a concrete 5-cell
sample has exactly 5 = floor(50 * 0.10) elites. -/
theorem elite_density_witness :
    ((EnemyGroup.init.createFormation
      [(50, 50, 0), (120, 50, 0), (190, 50, 0), (260, 50, 0), (330, 50, 0)]).enemies.filter
        (fun e => e.isElite)).length = 5 ∧
    (eliteCount 2 : ℤ) =
      ⌊((ENEMY_ROWS * ENEMY_COLS : ℕ) : ℚ) *
        min ((30 : ℚ) / 100) ((10 : ℚ) / 100 + (2 : ℚ) / 100 * (((2 : ℕ) : ℚ) - 2))⌋ := by
  have h := elite_density 2 EnemyGroup.init
    [(50, 50, 0), (120, 50, 0), (190, 50, 0), (260, 50, 0), (330, 50, 0)]
    (by decide) (by decide) (by decide)
  exact ⟨by rw [h.1]; decide, h.2.1 (by norm_num)⟩

end NeonInvaders
